import Mathlib

/-!
Verification of the lookup-and-reference library (`src/pycel/lib/lookup.py`).

The file embeds the source functions over an explicit value model.  The
helpers imported from `pycel.excelutil` (the typed comparator `ExcelCmp`,
the address classes, `get_column_letter`, the wildcard compiler, the grid
limits and the error constants) are not part of the sources; they are
modelled from the specification (sections 3, 4.1, 4.4 and 6) and each such
definition is marked `Modelled from the spec:` in its doc comment.
-/

namespace Pycel

/-- Modelled from the spec: the error sentinels are a closed set of
distinguished string constants (`NA_ERROR` from `pycel.excelutil`). -/
def NA_ERROR : String := "#N/A"

/-- Modelled from the spec: the invalid-reference sentinel (`REF_ERROR`). -/
def REF_ERROR : String := "#REF!"

/-- Modelled from the spec: the invalid-value sentinel (`VALUE_ERROR`). -/
def VALUE_ERROR : String := "#VALUE!"

/-- Modelled from the spec: grid bound `MAX_COL` (16384 columns, section 3). -/
def MAX_COL : Nat := 16384

/-- Modelled from the spec: grid bound `MAX_ROW` (1048576 rows, section 3). -/
def MAX_ROW : Nat := 1048576

/-- Modelled from the spec: a typed cell value, the discriminated union over
Number, Text, Boolean and ErrorSentinel of section 3.  Numbers are modelled
as integers.  An empty cell (absence marker) is `Option.none` at use sites. -/
inductive XVal where
  | num (n : Int)
  | str (s : String)
  | bool (b : Bool)
  | err (e : String)
deriving DecidableEq, Repr

/-- Modelled from the spec: `value in ERROR_CODES` becomes a test for the
error constructor. -/
def XVal.isErr : XVal → Bool
  | .err _ => true
  | _ => false

/-- Modelled from the spec: the comparison class of `ExcelCmp` (section 4.1).
Numbers and booleans form one class (0), text another (1), errors a third
(2). -/
def cmpType : XVal → Nat
  | .num _ => 0
  | .bool _ => 0
  | .str _ => 1
  | .err _ => 2

/-- Modelled from the spec: the comparison class of a possibly absent cell.
An absence marker is in a class of its own (the glossary: it is ignored in
descending search, so it matches no typed value's class). -/
def cmpTypeO : Option XVal → Nat
  | none => 3
  | some v => cmpType v

/-- Modelled from the spec: lower-casing of one character for the
case-insensitive text comparison of section 4.1. -/
def lowerChar (c : Char) : Char :=
  if 65 ≤ c.toNat && c.toNat ≤ 90 then Char.ofNat (c.toNat + 32) else c

/-- Modelled from the spec: the lower-cased character data of a text. -/
def lowerData (s : String) : List Char := s.data.map lowerChar

/-- Boolean lexicographic order on character lists (Python's string order,
used by the typed comparator for text). -/
def lexLt : List Char → List Char → Bool
  | _, [] => false
  | [], _ :: _ => true
  | a :: as, b :: bs => if a < b then true else if a = b then lexLt as bs else false

/-- Modelled from the spec: the within-class comparison key of `ExcelCmp`.
Booleans are numerically coercible (False as 0, True as 1); text compares
case-insensitively (section 4.1); error sentinels are ordered consistently
by their text. -/
def valKey : XVal → Int ⊕ List Char
  | .num n => .inl n
  | .bool b => .inl (if b then 1 else 0)
  | .str s => .inr (lowerData s)
  | .err e => .inr e.data

/-- Strict order on comparison keys; keys of different shapes never compare. -/
def keyLt : Int ⊕ List Char → Int ⊕ List Char → Bool
  | .inl m, .inl n => decide (m < n)
  | .inr s, .inr t => lexLt s t
  | _, _ => false

/-- Which side of the key sum a key lives on. -/
def keyBranch : Int ⊕ List Char → Bool
  | .inl _ => true
  | .inr _ => false

/-- Modelled from the spec: the strict order of `ExcelCmp` restricted to a
single comparison class; values of different classes are incomparable
(section 3: cross-class comparisons are "not less / not equal"). -/
def xlt (a b : XVal) : Bool := (cmpType a == cmpType b) && keyLt (valKey a) (valKey b)

/-- Modelled from the spec: the equality of `ExcelCmp` (same class and same
comparison key, hence case-insensitive on text). -/
def xeqB (a b : XVal) : Bool := (cmpType a == cmpType b) && decide (valKey a = valKey b)

/-- Comparison of a target against a possibly absent cell: an absence marker
sorts below every target (spec, section 3), so the target is never less. -/
def optLt (x : XVal) : Option XVal → Bool
  | none => false
  | some v => xlt x v

/-- Result of `_match`: a 1-based position or an error string. -/
inductive MatchResult where
  | pos (i : Nat)
  | err (e : String)
deriving DecidableEq, Repr

/-- The loop `while lo < len(lookup_array) and lookup_array[lo] is None`
of `_match` (match_type 1): number of leading absence markers. -/
def countLeadingNones : List (Option XVal) → Nat
  | [] => 0
  | none :: rest => countLeadingNones rest + 1
  | some _ :: _ => 0

/-- Start of the searched window: index after the leading absence markers. -/
def trimLo (a : List (Option XVal)) : Nat := countLeadingNones a

/-- End of the searched window, the loop
`while hi > 0 and lookup_array[hi - 1] is None: hi -= 1`. -/
def trimHi (a : List (Option XVal)) : Nat := a.length - countLeadingNones a.reverse

/-- The loop of Python's `bisect_right`, with explicit fuel (each iteration
shrinks `hi - lo`, so `hi - lo` iterations always suffice). -/
def bisectGo (a : List (Option XVal)) (x : XVal) : Nat → Nat → Nat → Nat
  | 0, lo, _ => lo
  | fuel + 1, lo, hi =>
    if lo < hi then
      if optLt x (a.getD ((lo + hi) / 2) none) then bisectGo a x fuel lo ((lo + hi) / 2)
      else bisectGo a x fuel ((lo + hi) / 2 + 1) hi
    else lo

/-- Python's `bisect_right(lookup_array, lookup_value, lo=lo, hi=hi)` from
the standard library, as used by `_match` with match_type 1. -/
def bisect_right (a : List (Option XVal)) (x : XVal) (lo hi : Nat) : Nat :=
  bisectGo a x (hi - lo) lo hi

/-- The walk-back loop of `_match` (match_type 1):
`while result and lookup_value.cmp_type != ExcelCmp(lookup_array[result - 1]).cmp_type`. -/
def walkBack (a : List (Option XVal)) (t : Nat) : Nat → Nat
  | 0 => 0
  | r + 1 => if t ≠ cmpTypeO (a.getD r none) then walkBack a t r else r + 1

/-- The `_match` branch for match_type 1 (ascending): trim the absence markers, binary
search, walk back across foreign comparison classes, then the final
not-found checks (`result == 0 or lookup_array[result - 1] is None`). -/
def matchAsc (lv : XVal) (a : List (Option XVal)) : MatchResult :=
  let result := walkBack a (cmpType lv) (bisect_right a lv (trimLo a) (trimHi a))
  if result = 0 then .err NA_ERROR
  else if a.getD (result - 1) none = none then .err NA_ERROR
  else .pos result

/-- One step of `enumerate(lookup_array, 1)`: index the elements from `i`. -/
def enumFrom (i : Nat) : List (Option XVal) → List (Nat × Option XVal)
  | [] => []
  | v :: rest => (i, v) :: enumFrom (i + 1) rest

/-- The scanning loop of `_match` for match_type -1 (descending).  `res` is
the mutable cell `result[0]`, initially `NA_ERROR`.  The comparator:
an element below the target breaks with the previous `res`; otherwise the
index is recorded and an exact hit breaks. -/
def matchDescGo (lv : XVal) : Nat → MatchResult → List (Option XVal) → MatchResult
  | _, res, [] => res
  | i, res, none :: rest => matchDescGo lv (i + 1) res rest
  | i, res, some w :: rest =>
    if w.isErr then matchDescGo lv (i + 1) res rest
    else if cmpType w = cmpType lv then
      if xlt w lv then res
      else if xeqB w lv then .pos i
      else matchDescGo lv (i + 1) (.pos i) rest
    else matchDescGo lv (i + 1) res rest

/-- The `_match` branch for match_type -1. -/
def matchDesc (lv : XVal) (a : List (Option XVal)) : MatchResult :=
  matchDescGo lv 1 (.err NA_ERROR) a

/-- Modelled from the spec: wildcard pattern interpreter (section 6), with
explicit fuel (each step shrinks pattern or text).  `?` matches one
character, `*` any run, and the escape character makes the next wildcard
literal. -/
def wildGo : Nat → List Char → List Char → Bool
  | 0, _, _ => false
  | _ + 1, [], [] => true
  | f + 1, '*' :: ps, [] => wildGo f ps []
  | _ + 1, _ :: _, [] => false
  | _ + 1, [], _ :: _ => false
  | f + 1, '~' :: c :: ps, t :: ts => c = t && wildGo f ps ts
  | _ + 1, ['~'], _ :: _ => false
  | f + 1, '?' :: ps, _ :: ts => wildGo f ps ts
  | f + 1, '*' :: ps, t :: ts => wildGo f ps (t :: ts) || wildGo f ('*' :: ps) ts
  | f + 1, c :: ps, t :: ts => c = t && wildGo f ps ts

/-- Modelled from the spec: `build_wildcard_re` — compile `?`/`*` text into a
predicate, or `none` when the text has no wildcard markers (then literal
equality is used). -/
def build_wildcard_re (s : List Char) : Option (List Char → Bool) :=
  if s.any (fun c => c = '?' || c = '*') then
    some (fun t => wildGo (s.length + t.length + 1) s t)
  else none

/-- The text key an exact wildcard match is applied to (`val.value` of the
comparator: lowercased text). -/
def textKey : XVal → List Char
  | .str s => lowerData s
  | _ => []

/-- The `compare` closure selected by `_match` for match_type 0: wildcard
match for a text target holding markers, literal comparator equality
otherwise. -/
def exactPred (lv : XVal) : XVal → Bool :=
  match lv with
  | .str s =>
    match build_wildcard_re (lowerData s) with
    | some f => fun w => f (textKey w)
    | none => fun w => xeqB w lv
  | _ => fun w => xeqB w lv

/-- The scanning loop of `_match` for match_type 0: first element of the
target's class satisfying the comparator, errors and absences skipped. -/
def matchExactGo (lv : XVal) (p : XVal → Bool) : Nat → List (Option XVal) → MatchResult
  | _, [] => .err NA_ERROR
  | i, none :: rest => matchExactGo lv p (i + 1) rest
  | i, some w :: rest =>
    if w.isErr then matchExactGo lv p (i + 1) rest
    else if cmpType w = cmpType lv && p w then .pos i
    else matchExactGo lv p (i + 1) rest

/-- The `_match` branch for match_type 0. -/
def matchExact (lv : XVal) (a : List (Option XVal)) : MatchResult :=
  matchExactGo lv (exactPred lv) 1 a

/-- The dispatcher `_match(lookup_value, lookup_array, match_type)`.  Python's
`bool(range_lookup)` call sites map `True` to 1 and `False` to 0. -/
def matchF (lv : XVal) (a : List (Option XVal)) (mt : Int) : MatchResult :=
  if mt = 1 then matchAsc lv a
  else if mt = 0 then matchExact lv a
  else matchDesc lv a

/-- An argument that may be a scalar or a rectangular array
(`list_like` distinguishes the two). -/
inductive ArgValue where
  | scalar (v : Option XVal)
  | array (rows : List (List (Option XVal)))
deriving DecidableEq, Repr

/-- Result of a lookup function: a returned cell value, or `raised` when the
Python source would raise an uncaught `IndexError` (indexing an empty
sequence). -/
inductive XResult where
  | ok (v : Option XVal)
  | raised
deriving DecidableEq, Repr

/-- The comprehension `[row[0] for row in table]`: `none` when some row is empty (the source
raises there). -/
def firstColumn : List (List (Option XVal)) → Option (List (Option XVal))
  | [] => some []
  | [] :: _ => none
  | (v :: _) :: rest => (firstColumn rest).map (fun l => v :: l)

/-- The comprehension `tuple(i[-1] for i in rows)`: `none` when some row is empty. -/
def lastColumn : List (List (Option XVal)) → Option (List (Option XVal))
  | [] => some []
  | [] :: _ => none
  | (v :: vs) :: rest => (lastColumn rest).map (fun l => (v :: vs).getLastD none :: l)

/-- The projection `result[match_idx - 1]` guarded by `isinstance(match_idx, int)`: project
the located 1-based index out of the result vector, propagate the error
string, raise past the end. -/
def projectResult : MatchResult → List (Option XVal) → XResult
  | .pos i, res =>
    match res.get? (i - 1) with
    | some v => .ok v
    | none => .raised
  | .err e, _ => .ok (some (.err e))

/-- Vertical lookup, `vlookup(lookup_value, table_array, col_index_num, range_lookup)`. -/
def vlookup (lv : XVal) (table_array : ArgValue) (col_index_num : Int)
    (range_lookup : Bool := true) : XResult :=
  match table_array with
  | .scalar _ => .ok (some (.err NA_ERROR))
  | .array rows =>
    if col_index_num ≤ 0 then .ok (some (.err VALUE_ERROR))
    else
      match rows with
      | [] => .raised
      | r0 :: _ =>
        if col_index_num > (r0.length : Int) then .ok (some (.err REF_ERROR))
        else
          match firstColumn rows with
          | none => .raised
          | some fc =>
            match matchF lv fc (if range_lookup then 1 else 0) with
            | .pos idx =>
              match rows.get? (idx - 1) with
              | some r =>
                match r.get? ((col_index_num - 1).toNat) with
                | some v => .ok v
                | none => .raised
              | none => .raised
            | .err e => .ok (some (.err e))

/-- Horizontal lookup, `hlookup(lookup_value, table_array, row_index_num, range_lookup)`. -/
def hlookup (lv : XVal) (table_array : ArgValue) (row_index_num : Int)
    (range_lookup : Bool := true) : XResult :=
  match table_array with
  | .scalar _ => .ok (some (.err NA_ERROR))
  | .array rows =>
    if row_index_num ≤ 0 then .ok (some (.err VALUE_ERROR))
    else if row_index_num > (rows.length : Int) then .ok (some (.err REF_ERROR))
    else
      match rows.get? 0 with
      | none => .raised
      | some r0 =>
        match matchF lv r0 (if range_lookup then 1 else 0) with
        | .pos idx =>
          match rows.get? ((row_index_num - 1).toNat) with
          | some r =>
            match r.get? (idx - 1) with
            | some v => .ok v
            | none => .raised
          | none => .raised
        | .err e => .ok (some (.err e))

/-- The `result_range` handling and final projection of `lookup`:
shape checks of the explicit result vector, then the projection. -/
def lookupFinish (match_idx : MatchResult) (result0 : List (Option XVal))
    (result_range : Option ArgValue) : XResult :=
  match result_range with
  | none => projectResult match_idx result0
  | some (.scalar _) => .ok (some (.err NA_ERROR))
  | some (.array rrows) =>
    match rrows.get? 0 with
    | none => .raised
    | some rr0 =>
      if rr0.length < rrows.length then
        if rr0.length ≠ 1 then .ok (some (.err NA_ERROR))
        else
          match firstColumn rrows with
          | none => .raised
          | some fc => projectResult match_idx fc
      else
        if rrows.length ≠ 1 then .ok (some (.err NA_ERROR))
        else projectResult match_idx rr0

/-- The function `lookup(lookup_value, lookup_array, result_range)`: vector/array form
with the match across the largest dimension. -/
def lookup (lv : XVal) (lookup_array : ArgValue)
    (result_range : Option ArgValue := none) : XResult :=
  match lookup_array with
  | .scalar _ => .ok (some (.err NA_ERROR))
  | .array rows =>
    match rows.get? 0 with
    | none => .raised
    | some r0 =>
      if r0.length ≤ rows.length then
        match firstColumn rows, lastColumn rows with
        | some fc, some lc => lookupFinish (matchF lv fc 1) lc result_range
        | _, _ => .raised
      else lookupFinish (matchF lv r0 1) (rows.getLastD []) result_range

/-- A sheet-qualified point coordinate (spec, section 3: Address). -/
structure CellRef where
  sheet : String
  col : Nat
  row : Nat
deriving DecidableEq, Repr

/-- A sheet-qualified rectangular span (spec, section 3: Range). -/
structure RangeRef where
  sheet : String
  col1 : Nat
  row1 : Nat
  col2 : Nat
  row2 : Nat
deriving DecidableEq, Repr

/-- A reference argument (an `AddressCell` or `AddressRange` object). -/
inductive ARef where
  | cell (c : CellRef)
  | rng (r : RangeRef)
deriving DecidableEq, Repr

/-- A reference-producing result: a point, a span, or an error sentinel. -/
inductive RefResult where
  | cell (c : CellRef)
  | rng (r : RangeRef)
  | err (e : String)
deriving DecidableEq, Repr

/-- Modelled from the spec: `base_addr.sheet`. -/
def ARef.sheet : ARef → String
  | .cell c => c.sheet
  | .rng r => r.sheet

/-- Modelled from the spec: `base_addr.row` (top row). -/
def ARef.row : ARef → Nat
  | .cell c => c.row
  | .rng r => r.row1

/-- Modelled from the spec: `base_addr.col_idx` (left column). -/
def ARef.col_idx : ARef → Nat
  | .cell c => c.col
  | .rng r => r.col1

/-- Modelled from the spec: `base_addr.size.height`. -/
def ARef.height : ARef → Int
  | .cell _ => 1
  | .rng r => (r.row2 : Int) - r.row1 + 1

/-- Modelled from the spec: `base_addr.size.width`. -/
def ARef.width : ARef → Int
  | .cell _ => 1
  | .rng r => (r.col2 : Int) - r.col1 + 1

/-- The digit-emitting loop of decimal formatting (`str(row_num)` for a
positive integer), with fuel (`n // 10 < n` for `n ≥ 1`). -/
def natDigitsGo : Nat → Nat → List Char
  | 0, _ => []
  | _ + 1, 0 => []
  | fuel + 1, m + 1 => natDigitsGo fuel ((m + 1) / 10) ++ [Char.ofNat (48 + (m + 1) % 10)]

/-- Python's `str(n)` for a natural number. -/
def natStr (n : Nat) : String :=
  if n = 0 then "0" else String.mk (natDigitsGo n n)

/-- Modelled from the spec: the letter-emitting loop of
`openpyxl.utils.get_column_letter` (bijective base 26), with fuel. -/
def colLettersGo : Nat → Nat → List Char
  | 0, _ => []
  | _ + 1, 0 => []
  | fuel + 1, m + 1 => colLettersGo fuel (m / 26) ++ [Char.ofNat (65 + m % 26)]

/-- Modelled from the spec: `get_column_letter` — standard column letters. -/
def get_column_letter (n : Nat) : String := String.mk (colLettersGo n n)

/-- The function `address(row_num, column_num, abs_num, style, sheet_text)`.  Here `style = 0`
selects R1C1 (Python renders a relative component as `str([n])`, hence the
brackets); anything else selects A1 with `$` markers per `abs_num`. -/
def address (row_num col_num : Nat) (abs_num : Nat := 1) (style : Option Nat := none)
    (sheet_text : String := "") : String :=
  let sheet := if sheet_text ≠ "" then "'" ++ sheet_text ++ "'!" else sheet_text
  if style = some 0 then
    let r := if abs_num = 1 ∨ abs_num = 2 then natStr row_num else "[" ++ natStr row_num ++ "]"
    let c := if abs_num = 1 ∨ abs_num = 3 then natStr col_num else "[" ++ natStr col_num ++ "]"
    sheet ++ "R" ++ r ++ "C" ++ c
  else
    let abs_row := if abs_num = 1 ∨ abs_num = 2 then "$" else ""
    let abs_col := if abs_num = 1 ∨ abs_num = 3 then "$" else ""
    sheet ++ abs_col ++ get_column_letter col_num ++ abs_row ++ natStr row_num

/-- Is `c` an upper-case letter (the column part of an A1 address)? -/
def isUpper (c : Char) : Bool := 65 ≤ c.toNat && c.toNat ≤ 90

/-- Is `c` a decimal digit (the row part of an A1 address)? -/
def isDigitC (c : Char) : Bool := 48 ≤ c.toNat && c.toNat ≤ 57

/-- Split a character list at the first occurrence of `x`; `none` when `x`
does not occur. -/
def splitChar (x : Char) : List Char → Option (List Char × List Char)
  | [] => none
  | c :: cs =>
    if c = x then some ([], cs)
    else (splitChar x cs).map (fun p => (c :: p.1, p.2))

/-- Take the maximal run of upper-case letters off the front. -/
def takeUpper : List Char → List Char × List Char
  | [] => ([], [])
  | c :: cs => if isUpper c then ((takeUpper cs).1.cons c, (takeUpper cs).2) else ([], c :: cs)

/-- Value of a bijective base-26 column-letter run. -/
def lettersVal (l : List Char) : Nat := l.foldl (fun acc c => acc * 26 + (c.toNat - 64)) 0

/-- Value of a decimal digit run. -/
def digitsVal (l : List Char) : Nat := l.foldl (fun acc c => acc * 10 + (c.toNat - 48)) 0

/-- Strip one leading `$` if present (absolute-marker tolerance of the
A1 parser). -/
def stripDollar (cs : List Char) : List Char :=
  match cs with
  | c :: rest => if c = '$' then rest else cs
  | [] => cs

/-- Modelled from the spec: parse one A1-style point (`[$]letters[$]digits`),
returning column and row, or `none` when malformed. -/
def parsePoint (cs : List Char) : Option (Nat × Nat) :=
  let cs1 := stripDollar cs
  let letters := (takeUpper cs1).1
  let rest := stripDollar (takeUpper cs1).2
  if letters ≠ [] && rest ≠ [] && rest.all isDigitC then
    some (lettersVal letters, digitsVal rest)
  else none

/-- A parsed address text: a point or a span, with an optional sheet. -/
inductive Parsed where
  | cell (sheet : Option String) (col row : Nat)
  | rng (sheet : Option String) (col1 row1 col2 row2 : Nat)
deriving DecidableEq, Repr

/-- Strip the quotes of a quoted sheet name. -/
def unquote (l : List Char) : List Char :=
  if l.head? = some (Char.ofNat 39) ∧ l.getLast? = some (Char.ofNat 39) then
    (l.drop 1).dropLast
  else l

/-- Modelled from the spec: the body of an address text — one point, or two
points joined by a colon. -/
def parseBody (sheet : Option String) (cs : List Char) : Option Parsed :=
  match splitChar ':' cs with
  | some (p1, p2) =>
    (parsePoint p1).bind fun a =>
      (parsePoint p2).map fun b => Parsed.rng sheet a.1 a.2 b.1 b.2
  | none => (parsePoint cs).map fun p => Parsed.cell sheet p.1 p.2

/-- Modelled from the spec: `AddressRange.create` on a text — split the
optional `'sheet'!` prefix and parse the body; `none` is the `ValueError`
of a malformed text. -/
def AddressRange_create (s : String) : Option Parsed :=
  match splitChar '!' s.data with
  | some (sh, body) => parseBody (some (String.mk (unquote sh))) body
  | none => parseBody none s.data

/-- Row bound checked by `indirect` (`address.row`). -/
def Parsed.rowOf : Parsed → Nat
  | .cell _ _ r => r
  | .rng _ _ r1 _ r2 => max r1 r2

/-- Column bound checked by `indirect` (`address.col_idx`). -/
def Parsed.colOf : Parsed → Nat
  | .cell _ c _ => c
  | .rng _ c1 _ c2 _ => max c1 c2

/-- The function `indirect(ref_text, a1, sheet)`: parse, bound-check against the grid,
and attach the default sheet when none is encoded.  (The source accepts and
ignores `a1`; `AddressRange.create` parses A1 notation.) -/
def indirect (ref_text : String) (a1 : Bool := true) (sheet : String := "") : RefResult :=
  match AddressRange_create ref_text with
  | none => .err REF_ERROR
  | some p =>
    if p.rowOf > MAX_ROW ∨ p.colOf > MAX_COL then .err REF_ERROR
    else
      match p with
      | .cell sh c r => .cell ⟨sh.getD sheet, c, r⟩
      | .rng sh c1 r1 c2 r2 => .rng ⟨sh.getD sheet, c1, r1, c2, r2⟩

/-- The function `offset(reference, row_inc, col_inc, height, width)`: shift the top-left,
default the size to the base's own, bound-check both corners, and return a
point for a 1x1 result or a span inheriting the base's sheet. -/
def offset (reference : ARef) (row_inc col_inc : Int)
    (height : Option Int := none) (width : Option Int := none) : RefResult :=
  let h := height.getD reference.height
  let w := width.getD reference.width
  let new_row : Int := (reference.row : Int) + row_inc
  let end_row : Int := new_row + h - 1
  let new_col : Int := (reference.col_idx : Int) + col_inc
  let end_col : Int := new_col + w - 1
  if new_row ≤ 0 ∨ end_row > (MAX_ROW : Int) ∨ new_col ≤ 0 ∨ end_col > (MAX_COL : Int) then
    .err REF_ERROR
  else if h = 1 ∧ w = 1 then .cell ⟨reference.sheet, new_col.toNat, new_row.toNat⟩
  else .rng ⟨reference.sheet, new_col.toNat, new_row.toNat, end_col.toNat, end_row.toNat⟩

/-- Does a sequence element participate in a descending search for `lv`
(claim C2's wording): not an error sentinel and in the target's class? -/
def isPart (lv : XVal) : Option XVal → Bool
  | none => false
  | some w => !w.isErr && (cmpType w == cmpType lv)

/-- Is an indexed participating element a stop of the descending scan
(strictly below the target, or an exact hit)? -/
def isStop (lv : XVal) (p : Nat × Option XVal) : Bool :=
  match p.2 with
  | some w => xlt w lv || xeqB w lv
  | none => false

/-- Is an indexed participating element strictly below the target? -/
def isBelow (lv : XVal) (p : Nat × Option XVal) : Bool :=
  match p.2 with
  | some w => xlt w lv
  | none => false

/-- Index of the last element of an indexed list, or the fallback result. -/
def lastIdxD (res : MatchResult) (l : List (Nat × Option XVal)) : MatchResult :=
  match l.getLast? with
  | some p => .pos p.1
  | none => res

/-- Descriptive semantics of the descending scan over an indexed list of
participating elements, with fallback `res`: the scan stops at the first
element that is strictly below the target or an exact hit; an exact hit
returns its own index, a strictly-below stop returns the last participating
index before it, and a scan without a stop returns the last participating
index; the fallback is returned when nothing was recorded. -/
def descendSpecFrom (lv : XVal) (res : MatchResult)
    (parts : List (Nat × Option XVal)) : MatchResult :=
  match parts.find? (isStop lv) with
  | some s =>
    if (match s.2 with | some w => xeqB w lv | none => false) then .pos s.1
    else lastIdxD res (parts.takeWhile (fun p => !isStop lv p))
  | none => lastIdxD res parts

/-- The amended descriptive semantics of the descending search: only
participating elements take part, and the scan semantics of
`descendSpecFrom` apply with the not-found sentinel as fallback. -/
def specDesc (lv : XVal) (a : List (Option XVal)) : MatchResult :=
  descendSpecFrom lv (.err NA_ERROR) ((enumFrom 1 a).filter (fun p => isPart lv p.2))

/-- Claim C2 as stated: the result is the index of the participating element
immediately before the first participating element strictly below the
target, and the not-found sentinel when there is none before that stop.
(The claim leaves a scan without such a stop unspecified; this definition
returns the not-found sentinel there, and the counterexample below does not
exercise that branch.) -/
def descClaimed (lv : XVal) (a : List (Option XVal)) : MatchResult :=
  let parts := (enumFrom 1 a).filter (fun p => isPart lv p.2)
  match parts.find? (isBelow lv) with
  | some _ => lastIdxD (.err NA_ERROR) (parts.takeWhile (fun p => !isBelow lv p))
  | none => .err NA_ERROR

/-- Order between two possibly absent cells, for sortedness hypotheses:
only two present values compare. -/
def oLt : Option XVal → Option XVal → Bool
  | some u, some v => xlt u v
  | _, _ => false

/-- Is an explicit `result_range` argument ill-shaped in the sense of claim
C8 (a scalar, or a non-empty array that is neither a single row nor a
single column)? -/
def badShape : ArgValue → Prop
  | .scalar _ => True
  | .array rrows => rrows ≠ [] ∧ rrows.length ≠ 1 ∧ (rrows.headD []).length ≠ 1

/-! Theorems. -/

theorem lexLt_irrefl (l : List Char) : lexLt l l = false := by
  induction l with
  | nil => rfl
  | cons c cs ih => simp [lexLt, lt_irrefl, ih]

theorem keyLt_irrefl (k : Int ⊕ List Char) : keyLt k k = false := by
  cases k with
  | inl m => simp [keyLt]
  | inr l => simp [keyLt, lexLt_irrefl]

theorem xlt_not_xeqB {w lv : XVal} (h : xlt w lv = true) : xeqB w lv = false := by
  by_contra hne
  have he : xeqB w lv = true := by
    cases hxe : xeqB w lv with
    | true => rfl
    | false => exact absurd hxe hne
  have hkey : valKey w = valKey lv := by
    have := (Bool.and_eq_true _ _).mp he
    exact of_decide_eq_true this.2
  have := (Bool.and_eq_true _ _).mp h
  rw [hkey, keyLt_irrefl] at this
  exact Bool.false_ne_true this.2

theorem lastIdxD_cons :
    ∀ (l : List (Nat × Option XVal)) (x : Nat × Option XVal) (res : MatchResult),
      lastIdxD res (x :: l) = lastIdxD (.pos x.1) l := by
  intro l x res
  cases l with
  | nil => rfl
  | cons y l =>
    unfold lastIdxD
    rw [List.getLast?_cons_cons]
    cases hl : (y :: l).getLast? with
    | none => simp at hl
    | some p => rfl

theorem descendSpecFrom_stop (lv : XVal) (res : MatchResult) (i : Nat) (w : XVal)
    (l : List (Nat × Option XVal)) (hs : isStop lv (i, some w) = true) :
    descendSpecFrom lv res ((i, some w) :: l) =
      if xeqB w lv then .pos i else res := by
  unfold descendSpecFrom
  rw [List.find?_cons_of_pos _ hs, List.takeWhile_cons_of_neg]
  · rfl
  · simp [hs]

theorem descendSpecFrom_skip (lv : XVal) (res : MatchResult) (p : Nat × Option XVal)
    (l : List (Nat × Option XVal)) (hs : isStop lv p = false) :
    descendSpecFrom lv res (p :: l) = descendSpecFrom lv (.pos p.1) l := by
  unfold descendSpecFrom
  rw [List.find?_cons_of_neg _ (by simp [hs]), List.takeWhile_cons_of_pos (by simp [hs])]
  cases hf : l.find? (isStop lv) with
  | none => exact lastIdxD_cons l p res
  | some s =>
    cases he : (match s.2 with | some w => xeqB w lv | none => false) with
    | true => simp [he]
    | false => simp [he, lastIdxD_cons]

theorem matchDescGo_eq (lv : XVal) :
    ∀ (a : List (Option XVal)) (i : Nat) (res : MatchResult),
      matchDescGo lv i res a =
        descendSpecFrom lv res ((enumFrom i a).filter (fun p => isPart lv p.2)) := by
  intro a
  induction a with
  | nil => intro i res; rfl
  | cons v rest ih =>
    intro i res
    cases v with
    | none =>
      have hp : isPart lv (none : Option XVal) = false := rfl
      simp only [matchDescGo, enumFrom, List.filter_cons, hp, if_neg (by simp : ¬ False)]
      simpa using ih (i + 1) res
    | some w =>
      by_cases he : w.isErr = true
      · have hp : isPart lv (some w) = false := by simp [isPart, he]
        have h1 : matchDescGo lv i res (some w :: rest) = matchDescGo lv (i + 1) res rest := by
          simp [matchDescGo, he]
        have h2 : (enumFrom i (some w :: rest)).filter (fun p => isPart lv p.2) =
            (enumFrom (i + 1) rest).filter (fun p => isPart lv p.2) := by
          simp [enumFrom, List.filter_cons, hp]
        rw [h1, h2, ih]
      · by_cases hc : cmpType w = cmpType lv
        · have hp : isPart lv (some w) = true := by simp [isPart, he, hc]
          have hfil : (enumFrom i (some w :: rest)).filter (fun p => isPart lv p.2) =
              (i, some w) :: (enumFrom (i + 1) rest).filter (fun p => isPart lv p.2) := by
            simp [enumFrom, List.filter_cons, hp]
          by_cases hlt : xlt w lv = true
          · have hs : isStop lv (i, some w) = true := by simp [isStop, hlt]
            have h1 : matchDescGo lv i res (some w :: rest) = res := by
              simp [matchDescGo, he, hc, hlt]
            rw [h1, hfil, descendSpecFrom_stop lv res i w _ hs]
            simp [xlt_not_xeqB hlt]
          · by_cases heq : xeqB w lv = true
            · have hs : isStop lv (i, some w) = true := by simp [isStop, heq]
              have h1 : matchDescGo lv i res (some w :: rest) = .pos i := by
                simp [matchDescGo, he, hc, hlt, heq]
              rw [h1, hfil, descendSpecFrom_stop lv res i w _ hs, if_pos heq]
            · have hs : isStop lv (i, some w) = false := by simp [isStop, hlt, heq]
              have h1 : matchDescGo lv i res (some w :: rest) =
                  matchDescGo lv (i + 1) (.pos i) rest := by
                simp [matchDescGo, he, hc, hlt, heq]
              rw [h1, hfil, descendSpecFrom_skip lv res (i, some w) _ hs, ih]
        · have hp : isPart lv (some w) = false := by simp [isPart, hc]
          have h1 : matchDescGo lv i res (some w :: rest) =
              matchDescGo lv (i + 1) res rest := by
            simp [matchDescGo, he, hc]
          have h2 : (enumFrom i (some w :: rest)).filter (fun p => isPart lv p.2) =
              (enumFrom (i + 1) rest).filter (fun p => isPart lv p.2) := by
            simp [enumFrom, List.filter_cons, hp]
          rw [h1, h2, ih]

theorem digitChar_spec : ∀ d < 10,
    (Char.ofNat (48 + d)).toNat = 48 + d ∧ isDigitC (Char.ofNat (48 + d)) = true := by
  decide

theorem letterChar_spec : ∀ r < 26,
    (Char.ofNat (65 + r)).toNat = 65 + r ∧ isUpper (Char.ofNat (65 + r)) = true := by
  decide

theorem isUpper_not_special {c : Char} (h : isUpper c = true) :
    c ≠ '!' ∧ c ≠ ':' ∧ c ≠ '$' := by
  refine ⟨fun he => ?_, fun he => ?_, fun he => ?_⟩ <;> rw [he] at h <;> exact absurd h (by decide)

theorem isDigitC_not_special {c : Char} (h : isDigitC c = true) :
    isUpper c = false ∧ c ≠ '!' ∧ c ≠ ':' ∧ c ≠ '$' := by
  refine ⟨?_, fun he => ?_, fun he => ?_, fun he => ?_⟩
  · simp only [isDigitC, Bool.and_eq_true, decide_eq_true_eq] at h
    simp only [isUpper, Bool.and_eq_true, decide_eq_true_eq]
    simp only [Bool.and_eq_false_iff, decide_eq_false_iff_not]
    omega
  all_goals rw [he] at h; exact absurd h (by decide)

theorem digitsVal_append (xs : List Char) (c : Char) :
    digitsVal (xs ++ [c]) = digitsVal xs * 10 + (c.toNat - 48) := by
  simp [digitsVal, List.foldl_append]

theorem lettersVal_append (xs : List Char) (c : Char) :
    lettersVal (xs ++ [c]) = lettersVal xs * 26 + (c.toNat - 64) := by
  simp [lettersVal, List.foldl_append]

theorem natDigitsGo_val : ∀ fuel n, n ≤ fuel → digitsVal (natDigitsGo fuel n) = n := by
  intro fuel
  induction fuel with
  | zero => intro n hn; interval_cases n; rfl
  | succ f ih =>
    intro n hn
    cases n with
    | zero => rfl
    | succ m =>
      have hq : (m + 1) / 10 ≤ f := by omega
      have hr : (m + 1) % 10 < 10 := by omega
      have hchar := (digitChar_spec ((m + 1) % 10) hr).1
      simp only [natDigitsGo, digitsVal_append, ih _ hq, hchar]
      omega

theorem natDigitsGo_digits : ∀ fuel n c, c ∈ natDigitsGo fuel n → isDigitC c = true := by
  intro fuel
  induction fuel with
  | zero => intro n c hc; exact absurd hc (by simp [natDigitsGo])
  | succ f ih =>
    intro n c hc
    cases n with
    | zero => exact absurd hc (by simp [natDigitsGo])
    | succ m =>
      simp only [natDigitsGo, List.mem_append, List.mem_singleton] at hc
      rcases hc with hc | hc
      · exact ih _ _ hc
      · subst hc
        exact (digitChar_spec ((m + 1) % 10) (by omega)).2

theorem natDigitsGo_ne_nil (fuel n : Nat) (h1 : 1 ≤ n) (h2 : n ≤ fuel) :
    natDigitsGo fuel n ≠ [] := by
  cases fuel with
  | zero => omega
  | succ f =>
    cases n with
    | zero => omega
    | succ m => simp [natDigitsGo]

theorem colLettersGo_val : ∀ fuel n, n ≤ fuel → lettersVal (colLettersGo fuel n) = n := by
  intro fuel
  induction fuel with
  | zero => intro n hn; interval_cases n; rfl
  | succ f ih =>
    intro n hn
    cases n with
    | zero => rfl
    | succ m =>
      have hq : m / 26 ≤ f := by omega
      have hr : m % 26 < 26 := by omega
      have hchar := (letterChar_spec (m % 26) hr).1
      simp only [colLettersGo, lettersVal_append, ih _ hq, hchar]
      omega

theorem colLettersGo_upper : ∀ fuel n c, c ∈ colLettersGo fuel n → isUpper c = true := by
  intro fuel
  induction fuel with
  | zero => intro n c hc; exact absurd hc (by simp [colLettersGo])
  | succ f ih =>
    intro n c hc
    cases n with
    | zero => exact absurd hc (by simp [colLettersGo])
    | succ m =>
      simp only [colLettersGo, List.mem_append, List.mem_singleton] at hc
      rcases hc with hc | hc
      · exact ih _ _ hc
      · subst hc
        exact (letterChar_spec (m % 26) (by omega)).2

theorem colLettersGo_ne_nil (fuel n : Nat) (h1 : 1 ≤ n) (h2 : n ≤ fuel) :
    colLettersGo fuel n ≠ [] := by
  cases fuel with
  | zero => omega
  | succ f =>
    cases n with
    | zero => omega
    | succ m => simp [colLettersGo]

theorem splitChar_none (x : Char) : ∀ l, (∀ c ∈ l, c ≠ x) → splitChar x l = none := by
  intro l
  induction l with
  | nil => intro h; rfl
  | cons c cs ih =>
    intro h
    have hc : ¬ c = x := h c (List.mem_cons_self _ _)
    simp only [splitChar, if_neg hc, ih (fun d hd => h d (List.mem_cons_of_mem _ hd))]
    rfl

theorem takeUpper_append : ∀ (L rest : List Char), (∀ c ∈ L, isUpper c = true) →
    (∀ c, rest.head? = some c → isUpper c = false) →
    takeUpper (L ++ rest) = (L, rest) := by
  intro L
  induction L with
  | nil =>
    intro rest hL hr
    cases rest with
    | nil => rfl
    | cons c cs =>
      have := hr c rfl
      simp [takeUpper, this]
  | cons c L ih =>
    intro rest hL hr
    have hc : isUpper c = true := hL c (List.mem_cons_self _ _)
    have := ih rest (fun d hd => hL d (List.mem_cons_of_mem _ hd)) hr
    simp [takeUpper, hc, this]

theorem stripDollar_dollar (l : List Char) : stripDollar ('$' :: l) = l := by
  simp [stripDollar]

theorem stripDollar_other (c : Char) (l : List Char) (h : c ≠ '$') :
    stripDollar (c :: l) = c :: l := by
  simp [stripDollar, h]

theorem parsePoint_print (col row : Nat) (abscol absrow : List Char)
    (hc : 1 ≤ col) (hr : 1 ≤ row)
    (habs_c : abscol = [] ∨ abscol = ['$']) (habs_r : absrow = [] ∨ absrow = ['$']) :
    parsePoint (abscol ++ (colLettersGo col col ++ (absrow ++ natDigitsGo row row)))
      = some (col, row) := by
  have hL := colLettersGo_upper col col
  have hD := natDigitsGo_digits row row
  have hLne : colLettersGo col col ≠ [] := colLettersGo_ne_nil col col hc le_rfl
  have hDne : natDigitsGo row row ≠ [] := natDigitsGo_ne_nil row row hr le_rfl
  have hstrip1 : stripDollar
      (abscol ++ (colLettersGo col col ++ (absrow ++ natDigitsGo row row))) =
      colLettersGo col col ++ (absrow ++ natDigitsGo row row) := by
    rcases habs_c with h | h
    · subst h
      simp only [List.nil_append]
      cases hLl : colLettersGo col col with
      | nil => exact absurd hLl hLne
      | cons a L =>
        have ha : isUpper a = true := hL a (by rw [hLl]; exact List.mem_cons_self _ _)
        rw [List.cons_append, stripDollar_other _ _ (isUpper_not_special ha).2.2]
    · subst h
      simp only [List.singleton_append, stripDollar_dollar]
  have hhead : ∀ c, (absrow ++ natDigitsGo row row).head? = some c → isUpper c = false := by
    intro c hc'
    rcases habs_r with h | h
    · subst h
      simp only [List.nil_append] at hc'
      cases hDl : natDigitsGo row row with
      | nil => exact absurd hDl hDne
      | cons d D =>
        rw [hDl] at hc'
        simp only [List.head?_cons, Option.some.injEq] at hc'
        subst hc'
        exact (isDigitC_not_special (hD d (by rw [hDl]; exact List.mem_cons_self _ _))).1
    · subst h
      simp only [List.singleton_append, List.head?_cons, Option.some.injEq] at hc'
      subst hc'
      decide
  have htake : takeUpper (colLettersGo col col ++ (absrow ++ natDigitsGo row row)) =
      (colLettersGo col col, absrow ++ natDigitsGo row row) :=
    takeUpper_append _ _ hL hhead
  have hstrip2 : stripDollar (absrow ++ natDigitsGo row row) = natDigitsGo row row := by
    rcases habs_r with h | h
    · subst h
      simp only [List.nil_append]
      cases hDl : natDigitsGo row row with
      | nil => exact absurd hDl hDne
      | cons d D =>
        have hd : isDigitC d = true := hD d (by rw [hDl]; exact List.mem_cons_self _ _)
        exact stripDollar_other _ _ (isDigitC_not_special hd).2.2.2
    · subst h
      simp only [List.singleton_append, stripDollar_dollar]
  have hall : (natDigitsGo row row).all isDigitC = true := by
    rw [List.all_eq_true]
    intro c hcmem
    exact hD c hcmem
  simp only [parsePoint]
  rw [hstrip1, htake]
  simp only [hstrip2]
  rw [if_pos]
  · rw [colLettersGo_val col col le_rfl, natDigitsGo_val row row le_rfl]
  · simp only [Bool.and_eq_true, decide_eq_true_eq, ne_eq]
    exact ⟨⟨by simpa using hLne, by simpa using hDne⟩, hall⟩

theorem address_data (row col abs_n : Nat) (h3 : 1 ≤ row) :
    (address row col abs_n none "").data =
      (if abs_n = 1 ∨ abs_n = 3 then ['$'] else []) ++
        (colLettersGo col col ++
          ((if abs_n = 1 ∨ abs_n = 2 then ['$'] else []) ++ natDigitsGo row row)) := by
  have hns : natStr row = String.mk (natDigitsGo row row) := by
    unfold natStr
    rw [if_neg (by omega)]
  have h0 : ¬ ((none : Option Nat) = some 0) := by simp
  have he : ¬ ("" : String) ≠ "" := by simp
  have hds : ("$" : String).data = ['$'] := rfl
  have hde : ("" : String).data = ([] : List Char) := rfl
  have hgc : (get_column_letter col).data = colLettersGo col col := rfl
  have hnd : (String.mk (natDigitsGo row row)).data = natDigitsGo row row := rfl
  by_cases hcc : abs_n = 1 ∨ abs_n = 3 <;> by_cases hrr : abs_n = 1 ∨ abs_n = 2 <;>
    simp [address, h0, he, hns, hcc, hrr, String.data_append, hds, hde, hgc, hnd,
      List.append_assoc]

theorem create_print (row col abs_n : Nat) (h1 : 1 ≤ col) (h3 : 1 ≤ row) :
    AddressRange_create (address row col abs_n none "") =
      some (Parsed.cell none col row) := by
  have hdata := address_data row col abs_n h3
  have hchars : ∀ c ∈ (address row col abs_n none "").data,
      c = '$' ∨ isUpper c = true ∨ isDigitC c = true := by
    intro c hc
    rw [hdata] at hc
    rcases List.mem_append.mp hc with h | h
    · left
      by_cases hb : abs_n = 1 ∨ abs_n = 3
      · simpa using (by rw [if_pos hb] at h; simpa using h : c = '$')
      · rw [if_neg hb] at h
        exact absurd h (List.not_mem_nil c)
    · rcases List.mem_append.mp h with h | h
      · exact Or.inr (Or.inl (colLettersGo_upper col col c h))
      · rcases List.mem_append.mp h with h | h
        · left
          by_cases hb : abs_n = 1 ∨ abs_n = 2
          · rw [if_pos hb] at h
            simpa using h
          · rw [if_neg hb] at h
            exact absurd h (List.not_mem_nil c)
        · exact Or.inr (Or.inr (natDigitsGo_digits row row c h))
  have hnb : ∀ c ∈ (address row col abs_n none "").data, c ≠ '!' := by
    intro c hc
    rcases hchars c hc with h | h | h
    · subst h; decide
    · exact (isUpper_not_special h).1
    · exact (isDigitC_not_special h).2.1
  have hnc : ∀ c ∈ (address row col abs_n none "").data, c ≠ ':' := by
    intro c hc
    rcases hchars c hc with h | h | h
    · subst h; decide
    · exact (isUpper_not_special h).2.1
    · exact (isDigitC_not_special h).2.2.1
  have e1 : splitChar '!' (address row col abs_n none "").data = none :=
    splitChar_none _ _ hnb
  have e2 : splitChar ':' (address row col abs_n none "").data = none :=
    splitChar_none _ _ hnc
  have habsc : (if abs_n = 1 ∨ abs_n = 3 then ['$'] else ([] : List Char)) = [] ∨
      (if abs_n = 1 ∨ abs_n = 3 then ['$'] else ([] : List Char)) = ['$'] := by
    by_cases hb : abs_n = 1 ∨ abs_n = 3 <;> simp [hb]
  have habsr : (if abs_n = 1 ∨ abs_n = 2 then ['$'] else ([] : List Char)) = [] ∨
      (if abs_n = 1 ∨ abs_n = 2 then ['$'] else ([] : List Char)) = ['$'] := by
    by_cases hb : abs_n = 1 ∨ abs_n = 2 <;> simp [hb]
  have hpp := parsePoint_print col row _ _ h1 h3 habsc habsr
  have e1' : splitChar '!'
      ((if abs_n = 1 ∨ abs_n = 3 then ['$'] else []) ++
        (colLettersGo col col ++
          ((if abs_n = 1 ∨ abs_n = 2 then ['$'] else []) ++ natDigitsGo row row))) = none := by
    rw [← hdata]; exact e1
  have e2' : splitChar ':'
      ((if abs_n = 1 ∨ abs_n = 3 then ['$'] else []) ++
        (colLettersGo col col ++
          ((if abs_n = 1 ∨ abs_n = 2 then ['$'] else []) ++ natDigitsGo row row))) = none := by
    rw [← hdata]; exact e2
  simp only [AddressRange_create, hdata, e1', parseBody, e2', hpp, Option.map_some']

/-- C5: the round trip of the address algebra — formatting an in-bounds
point with any absoluteness flag in A1 style and resolving the text through
`indirect` yields the same point, on the default sheet. -/
theorem c5_address_indirect_roundtrip (row col abs_n : Nat) (h1 : 1 ≤ col)
    (h2 : col ≤ MAX_COL) (h3 : 1 ≤ row) (h4 : row ≤ MAX_ROW)
    (h5 : abs_n = 1 ∨ abs_n = 2 ∨ abs_n = 3 ∨ abs_n = 4) :
    indirect (address row col abs_n none "") true "" = .cell ⟨"", col, row⟩ := by
  have hcreate := create_print row col abs_n h1 h3
  simp only [indirect, hcreate]
  rw [if_neg]
  · rfl
  · simp only [Parsed.rowOf, Parsed.colOf, not_or, not_lt]
    exact ⟨h4, h2⟩

/-- C5 witness: the round trip at a concrete in-bounds point. -/
theorem c5_address_indirect_roundtrip_witness :
    indirect (address 5 7 2 none "") true "" = .cell ⟨"", 7, 5⟩ :=
  c5_address_indirect_roundtrip 5 7 2 (by decide) (by decide) (by decide) (by decide)
    (by decide)

theorem bisectGo_spec (a : List (Option XVal)) (x : XVal) :
    ∀ fuel lo hi, hi - lo ≤ fuel → lo ≤ hi →
      lo ≤ bisectGo a x fuel lo hi ∧ bisectGo a x fuel lo hi ≤ hi ∧
      (bisectGo a x fuel lo hi < hi →
        optLt x (a.getD (bisectGo a x fuel lo hi) none) = true) ∧
      (lo < bisectGo a x fuel lo hi →
        optLt x (a.getD (bisectGo a x fuel lo hi - 1) none) = false) := by
  intro fuel
  induction fuel with
  | zero =>
    intro lo hi hf hle
    have : lo = hi := by omega
    subst this
    exact ⟨le_refl _, le_refl _, fun h => absurd h (lt_irrefl _), fun h => absurd h (lt_irrefl _)⟩
  | succ f ih =>
    intro lo hi hf hle
    by_cases hlh : lo < hi
    · have hm1 : lo ≤ (lo + hi) / 2 := by omega
      have hm2 : (lo + hi) / 2 < hi := by omega
      cases hx : optLt x (a.getD ((lo + hi) / 2) none) with
      | true =>
        have hrw : bisectGo a x (f + 1) lo hi = bisectGo a x f lo ((lo + hi) / 2) := by
          simp only [bisectGo, if_pos hlh, if_pos hx]
        obtain ⟨ih1, ih2, ih3, ih4⟩ := ih lo ((lo + hi) / 2) (by omega) hm1
        rw [hrw]
        refine ⟨ih1, le_trans ih2 (le_of_lt hm2), fun _ => ?_, ih4⟩
        rcases lt_or_eq_of_le ih2 with h | h
        · exact ih3 h
        · rw [h]; exact hx
      | false =>
        have hrw : bisectGo a x (f + 1) lo hi = bisectGo a x f ((lo + hi) / 2 + 1) hi := by
          simp only [bisectGo, if_pos hlh, hx]
          rw [if_neg]
          simp
        obtain ⟨ih1, ih2, ih3, ih4⟩ := ih ((lo + hi) / 2 + 1) hi (by omega) (by omega)
        rw [hrw]
        refine ⟨by omega, ih2, ih3, fun _ => ?_⟩
        rcases lt_or_eq_of_le ih1 with h | h
        · exact ih4 h
        · rw [← h]
          simpa using hx
    · have hrw : bisectGo a x (f + 1) lo hi = lo := by
        simp only [bisectGo, if_neg hlh]
      rw [hrw]
      exact ⟨le_refl _, hle, fun h => absurd h hlh, fun h => absurd h (lt_irrefl _)⟩

theorem bisect_right_spec (a : List (Option XVal)) (x : XVal) (lo hi : Nat)
    (hle : lo ≤ hi) :
    lo ≤ bisect_right a x lo hi ∧ bisect_right a x lo hi ≤ hi ∧
    (bisect_right a x lo hi < hi →
      optLt x (a.getD (bisect_right a x lo hi) none) = true) ∧
    (lo < bisect_right a x lo hi →
      optLt x (a.getD (bisect_right a x lo hi - 1) none) = false) :=
  bisectGo_spec a x (hi - lo) lo hi (le_refl _) hle

theorem lexLt_chain : ∀ (w u v : List Char),
    lexLt u w = true → lexLt v w = false → lexLt u v = true := by
  intro w
  induction w with
  | nil =>
    intro u v h1 h2
    cases u <;> simp [lexLt] at h1
  | cons c ws ih =>
    intro u v h1 h2
    cases u with
    | nil =>
      cases v with
      | nil => simp [lexLt] at h2
      | cons b vs => simp [lexLt]
    | cons a us =>
      cases v with
      | nil => simp [lexLt] at h2
      | cons b vs =>
        by_cases hac : a < c
        · by_cases hbc : b = c
          · subst hbc
            simp [lexLt, hac]
          · have hcb : ¬ b < c := by
              intro hlt
              simp [lexLt, hlt] at h2
            have hcb' : c < b := lt_of_le_of_ne (not_lt.mp hcb) (Ne.symm hbc)
            simp [lexLt, lt_trans hac hcb']
        · have h1' : a = c ∧ lexLt us ws = true := by
            by_cases haec : a = c
            · exact ⟨haec, by simpa [lexLt, hac, haec] using h1⟩
            · simp [lexLt, hac, haec] at h1
          obtain ⟨rfl, hus⟩ := h1'
          by_cases hba : b < a
          · simp [lexLt, hba] at h2
          · by_cases hbe : b = a
            · subst hbe
              have hvs : lexLt vs ws = false := by
                simpa [lexLt, lt_irrefl] using h2
              simp [lexLt, lt_irrefl, ih us vs hus hvs]
            · have : b < a ∨ b = a ∨ a < b := lt_trichotomy b a
              have hab : a < b := by
                rcases this with h | h | h
                · exact absurd h hba
                · exact absurd h hbe
                · exact h
              simp [lexLt, hab]

theorem keyBranch_of_cmpType {u v : XVal} (h : cmpType u = cmpType v) :
    keyBranch (valKey u) = keyBranch (valKey v) := by
  cases u <;> cases v <;> first | rfl | simp [cmpType] at h

theorem keyLt_chain (u v w : Int ⊕ List Char) (hb : keyBranch v = keyBranch w)
    (h1 : keyLt u w = true) (h2 : keyLt v w = false) : keyLt u v = true := by
  cases u with
  | inl m =>
    cases w with
    | inl n =>
      cases v with
      | inl p =>
        simp only [keyLt, decide_eq_true_eq] at h1 ⊢
        simp only [keyLt, decide_eq_false_iff_not] at h2
        omega
      | inr _ => simp [keyBranch] at hb
    | inr _ => simp [keyLt] at h1
  | inr s =>
    cases w with
    | inl _ => simp [keyLt] at h1
    | inr t =>
      cases v with
      | inl _ => simp [keyBranch] at hb
      | inr r =>
        simp only [keyLt] at h1 h2 ⊢
        exact lexLt_chain t s r h1 h2

/-- C1: over the trimmed window (leading and trailing absence markers
excluded), when every window element is present, of the target's comparison
class, and ascending, and the target occurs in the window, the ascending
search returns a 1-based window position whose element is at most the
target while every later window element is strictly greater — the last
occurrence of the largest element not above the target. -/
theorem c1_ascending_last_le (lv : XVal) (a : List (Option XVal)) (i0 : Nat)
    (hwin : ∀ k < trimHi a, trimLo a ≤ k →
      a.getD k none ≠ none ∧ cmpTypeO (a.getD k none) = cmpType lv)
    (hsort : ∀ j < trimHi a, ∀ k < j, trimLo a ≤ k →
      oLt (a.getD j none) (a.getD k none) = false)
    (hhi : i0 < trimHi a) (hlo : trimLo a ≤ i0) (hv : a.getD i0 none = some lv) :
    ∃ p, matchAsc lv a = .pos p ∧ trimLo a < p ∧ p ≤ trimHi a ∧
      optLt lv (a.getD (p - 1) none) = false ∧ a.getD (p - 1) none ≠ none ∧
      ∀ j, p ≤ j → j < trimHi a → optLt lv (a.getD j none) = true := by
  have hlehi : trimLo a ≤ trimHi a := le_of_lt (lt_of_le_of_lt hlo hhi)
  obtain ⟨hb1, hb2, hb3, hb4⟩ := bisect_right_spec a lv (trimLo a) (trimHi a) hlehi
  set r := bisect_right a lv (trimLo a) (trimHi a) with hrdef
  have hi0r : i0 < r := by
    by_contra hle
    push_neg at hle
    have hrhi : r < trimHi a := lt_of_le_of_lt hle hhi
    have h3 := hb3 hrhi
    rcases lt_or_eq_of_le hle with hlt | heq
    · obtain ⟨hrn, hrc⟩ := hwin r hrhi hb1
      have hs := hsort i0 hhi r hlt hb1
      cases har : a.getD r none with
      | none => exact hrn har
      | some vr =>
        rw [har] at h3 hs
        rw [hv] at hs
        simp only [optLt] at h3
        simp only [oLt] at hs
        rw [h3] at hs
        exact Bool.noConfusion hs
    · rw [heq] at h3
      rw [hv] at h3
      simp [optLt, xlt, keyLt_irrefl] at h3
  have hlor : trimLo a < r := lt_of_le_of_lt hlo hi0r
  have hr1hi : r - 1 < trimHi a := by omega
  have hr1lo : trimLo a ≤ r - 1 := by omega
  obtain ⟨hn1, hc1⟩ := hwin (r - 1) hr1hi hr1lo
  have hwb : walkBack a (cmpType lv) r = r := by
    obtain ⟨r', hr'⟩ : ∃ r', r = r' + 1 := ⟨r - 1, by omega⟩
    have hc1' : cmpTypeO (a.getD r' none) = cmpType lv := by
      have : r - 1 = r' := by omega
      rw [this] at hc1
      exact hc1
    rw [hr']
    simp only [walkBack]
    rw [if_neg (show ¬ cmpType lv ≠ cmpTypeO (a.getD r' none) from
      fun hne => hne hc1'.symm)]
  have hm : matchAsc lv a = .pos r := by
    simp only [matchAsc]
    rw [← hrdef, hwb, if_neg (show ¬ r = 0 by omega), if_neg hn1]
  refine ⟨r, hm, hlor, hb2, hb4 hlor, hn1, ?_⟩
  intro j hjr hjh
  have hrhi' : r < trimHi a := lt_of_le_of_lt hjr hjh
  have h3 := hb3 hrhi'
  rcases eq_or_lt_of_le hjr with heq | hlt
  · rw [← heq]
    exact h3
  · obtain ⟨hjn, hjc⟩ := hwin j hjh (by omega)
    obtain ⟨hrn, hrc⟩ := hwin r hrhi' hb1
    have hs := hsort j hjh r hlt hb1
    cases har : a.getD r none with
    | none => exact absurd har hrn
    | some vr =>
      cases haj : a.getD j none with
      | none => exact absurd haj hjn
      | some vj =>
        rw [har] at h3 hs hrc
        rw [haj] at hs hjc
        simp only [cmpTypeO] at hjc hrc
        simp only [optLt] at h3
        simp only [oLt] at hs
        simp only [optLt]
        have h1k : keyLt (valKey lv) (valKey vr) = true := by
          simp only [xlt, Bool.and_eq_true] at h3
          exact h3.2
        have hcls_jr : cmpType vj = cmpType vr := by rw [hjc, hrc]
        have h2k : keyLt (valKey vj) (valKey vr) = false := by
          simp only [xlt, hcls_jr, beq_self_eq_true, Bool.true_and] at hs
          exact hs
        have hchain := keyLt_chain (valKey lv) (valKey vj) (valKey vr)
          (keyBranch_of_cmpType hcls_jr) h1k h2k
        simp only [xlt, hchain, Bool.and_true]
        simp [hjc]

/-- C1 witness: the characterisation at the window `[_, 1, 5, 5, 9, _]` with
target 5 (the search returns window position 4, the last 5). -/
theorem c1_ascending_last_le_witness :
    ∃ p, matchAsc (XVal.num 5)
        [none, some (XVal.num 1), some (XVal.num 5), some (XVal.num 5),
          some (XVal.num 9), none] = .pos p ∧
      trimLo [none, some (XVal.num 1), some (XVal.num 5), some (XVal.num 5),
          some (XVal.num 9), none] < p ∧
      p ≤ trimHi [none, some (XVal.num 1), some (XVal.num 5), some (XVal.num 5),
          some (XVal.num 9), none] ∧
      optLt (XVal.num 5)
        (([none, some (XVal.num 1), some (XVal.num 5), some (XVal.num 5),
          some (XVal.num 9), none] : List (Option XVal)).getD (p - 1) none) = false ∧
      ([none, some (XVal.num 1), some (XVal.num 5), some (XVal.num 5),
          some (XVal.num 9), none] : List (Option XVal)).getD (p - 1) none ≠ none ∧
      ∀ j, p ≤ j →
        j < trimHi [none, some (XVal.num 1), some (XVal.num 5), some (XVal.num 5),
          some (XVal.num 9), none] →
        optLt (XVal.num 5)
          (([none, some (XVal.num 1), some (XVal.num 5), some (XVal.num 5),
            some (XVal.num 9), none] : List (Option XVal)).getD j none) = true :=
  c1_ascending_last_le (XVal.num 5)
    [none, some (XVal.num 1), some (XVal.num 5), some (XVal.num 5),
      some (XVal.num 9), none] 3
    (by decide) (by decide) (by decide) (by decide) (by decide)

/-- C2 counterexample: on the descending sequence `[5, 5, 1]` with target 5
the code answers position 1 (the scan stops at the first exact hit), while
the claim's description — the index immediately before the first
participating element strictly below the target — names position 2. -/
theorem c2_counterexample :
    matchDesc (.num 5) [some (.num 5), some (.num 5), some (.num 1)] = .pos 1 ∧
    descClaimed (.num 5) [some (.num 5), some (.num 5), some (.num 1)] = .pos 2 ∧
    MatchResult.pos 1 ≠ MatchResult.pos 2 := by
  refine ⟨by decide, by decide, by decide⟩

/-- C2 amended: in descending mode only elements of the target's comparison
class participate (others and error sentinels are skipped, counting as
neither hit nor disqualifier); the scan stops at the first participating
element that is strictly below the target — returning the last
participating index recorded before it — or at the first exact hit,
returning its own index; without a stop the last participating index is
returned, and the not-found sentinel when nothing was recorded. -/
theorem c2_descending_semantics (lv : XVal) (a : List (Option XVal)) :
    matchDesc lv a = specDesc lv a :=
  matchDescGo_eq lv a 1 (.err NA_ERROR)

/-- C3: `vlookup` with exact matching bound-checks the column index before
any matching: an index beyond the table width returns the invalid-reference
error and an index below 1 the invalid-value error, for every target. -/
theorem c3_vlookup_bounds :
    (∀ lv r0 rest (k : Int), k > (r0.length : Int) →
      vlookup lv (.array (r0 :: rest)) k false = .ok (some (.err REF_ERROR))) ∧
    (∀ lv rows (k : Int) rl, k < 1 →
      vlookup lv (.array rows) k rl = .ok (some (.err VALUE_ERROR))) := by
  constructor
  · intro lv r0 rest k hk
    have h0 : ¬ k ≤ 0 := by
      have : (0 : Int) ≤ (r0.length : Int) := Int.natCast_nonneg _
      omega
    simp only [vlookup, if_neg h0, if_pos hk]
  · intro lv rows k rl hk
    have h0 : k ≤ 0 := by omega
    simp only [vlookup, if_pos h0]

/-- C3 witness: the bounds at a concrete table. -/
theorem c3_vlookup_bounds_witness :
    vlookup (.num 1) (.array [[some (.num 1)]]) 2 false = .ok (some (.err REF_ERROR)) ∧
    vlookup (.num 1) (.array [[some (.num 1)]]) 0 true = .ok (some (.err VALUE_ERROR)) :=
  ⟨c3_vlookup_bounds.1 _ _ _ _ (by decide), c3_vlookup_bounds.2 _ _ _ _ (by decide)⟩

/-- C9 counterexample: a table that is not an array makes `vlookup` (and
`hlookup`) return the value-unavailable sentinel, not the invalid-value
sentinel the claim states. -/
theorem c9_counterexample :
    vlookup (.num 1) (.scalar none) 1 true ≠ .ok (some (.err VALUE_ERROR)) ∧
    hlookup (.num 1) (.scalar none) 1 true ≠ .ok (some (.err VALUE_ERROR)) ∧
    vlookup (.num 1) (.scalar none) 1 true = .ok (some (.err NA_ERROR)) ∧
    hlookup (.num 1) (.scalar none) 1 true = .ok (some (.err NA_ERROR)) := by
  refine ⟨by decide, by decide, rfl, rfl⟩

/-- C9 amended: a table argument that is not an array makes `vlookup` and
`hlookup` return the value-unavailable (`#N/A`) error, for every target,
index and matching mode. -/
theorem c9_nonarray_table (lv : XVal) (v : Option XVal) (k : Int) (rl : Bool) :
    vlookup lv (.scalar v) k rl = .ok (some (.err NA_ERROR)) ∧
    hlookup lv (.scalar v) k rl = .ok (some (.err NA_ERROR)) :=
  ⟨rfl, rfl⟩

/-- C6: `offset` returns the invalid-reference error whenever the shifted
top-left or bottom-right corner leaves the grid, regardless of the other
arguments; otherwise a 1x1 result is a point address and a larger result is
a span inheriting the base's sheet. -/
theorem c6_offset_bounds (base : ARef) (row_inc col_inc : Int)
    (height width : Option Int) :
    (((base.row : Int) + row_inc ≤ 0 ∨
        (base.row : Int) + row_inc + height.getD base.height - 1 > (MAX_ROW : Int) ∨
        (base.col_idx : Int) + col_inc ≤ 0 ∨
        (base.col_idx : Int) + col_inc + width.getD base.width - 1 > (MAX_COL : Int)) →
      offset base row_inc col_inc height width = .err REF_ERROR) ∧
    (¬ ((base.row : Int) + row_inc ≤ 0 ∨
        (base.row : Int) + row_inc + height.getD base.height - 1 > (MAX_ROW : Int) ∨
        (base.col_idx : Int) + col_inc ≤ 0 ∨
        (base.col_idx : Int) + col_inc + width.getD base.width - 1 > (MAX_COL : Int)) →
      (height.getD base.height = 1 ∧ width.getD base.width = 1 →
        offset base row_inc col_inc height width =
          .cell ⟨base.sheet, ((base.col_idx : Int) + col_inc).toNat,
            ((base.row : Int) + row_inc).toNat⟩) ∧
      (¬ (height.getD base.height = 1 ∧ width.getD base.width = 1) →
        offset base row_inc col_inc height width =
          .rng ⟨base.sheet, ((base.col_idx : Int) + col_inc).toNat,
            ((base.row : Int) + row_inc).toNat,
            ((base.col_idx : Int) + col_inc + width.getD base.width - 1).toNat,
            ((base.row : Int) + row_inc + height.getD base.height - 1).toNat⟩)) := by
  refine ⟨fun h => ?_, fun h => ⟨fun h1 => ?_, fun h1 => ?_⟩⟩
  · simp only [offset, if_pos h]
  · simp only [offset, if_neg h, if_pos h1]
  · simp only [offset, if_neg h, if_neg h1]

/-- C6 witness: one out-of-grid offset, the 1x1 identity, and one span. -/
theorem c6_offset_bounds_witness :
    offset (.cell ⟨"S", 1, 1⟩) (-1) 0 none none = .err REF_ERROR ∧
    offset (.cell ⟨"S", 3, 4⟩) 0 0 none none = .cell ⟨"S", 3, 4⟩ ∧
    offset (.cell ⟨"S", 1, 1⟩) 1 1 (some 2) (some 2) = .rng ⟨"S", 2, 2, 3, 3⟩ :=
  ⟨(c6_offset_bounds (.cell ⟨"S", 1, 1⟩) (-1) 0 none none).1 (by decide),
   ((c6_offset_bounds (.cell ⟨"S", 3, 4⟩) 0 0 none none).2 (by decide)).1 (by decide),
   ((c6_offset_bounds (.cell ⟨"S", 1, 1⟩) 1 1 (some 2) (some 2)).2 (by decide)).2 (by decide)⟩

/-- C7: `address` formats `$`-markers per `abs_num` in A1 style and `R<r>C<c>`
in R1C1 style, and a non-empty sheet text prefixes the result with
`'<sheet>'!`. -/
theorem c7_address_format :
    (∀ row col abs_n style sheet, sheet ≠ "" →
      address row col abs_n style sheet =
        "'" ++ sheet ++ "'!" ++ address row col abs_n style "") ∧
    address 1 1 1 none "" = "$A$1" ∧
    address 1 1 4 none "" = "A1" ∧
    address 2 3 1 (some 0) "" = "R2C3" := by
  refine ⟨fun row col abs_n style sheet hs => ?_, by decide, by decide, by decide⟩
  have he : ¬ ("" : String) ≠ "" := by simp
  by_cases h0 : style = some 0
  · simp only [address, if_pos hs, if_neg he, if_pos h0, String.empty_append,
      String.append_assoc]
  · simp only [address, if_pos hs, if_neg he, if_neg h0, String.empty_append,
      String.append_assoc]

/-- C7 witness: the sheet prefix at a concrete address. -/
theorem c7_address_format_witness :
    address 1 2 1 none "Sh" = "'" ++ "Sh" ++ "'!" ++ address 1 2 1 none "" :=
  c7_address_format.1 1 2 1 none "Sh" (by decide)

theorem firstColumn_eq (rows : List (List (Option XVal))) (h : ∀ r ∈ rows, r ≠ []) :
    firstColumn rows = some (rows.map (fun r => r.headD none)) := by
  induction rows with
  | nil => rfl
  | cons r rest ih =>
    cases r with
    | nil => exact absurd rfl (h [] (List.mem_cons_self _ _))
    | cons v vs =>
      have := ih (fun r hr => h r (List.mem_cons_of_mem _ hr))
      simp [firstColumn, this]

theorem lastColumn_eq (rows : List (List (Option XVal))) (h : ∀ r ∈ rows, r ≠ []) :
    lastColumn rows = some (rows.map (fun r => r.getLastD none)) := by
  induction rows with
  | nil => rfl
  | cons r rest ih =>
    cases r with
    | nil => exact absurd rfl (h [] (List.mem_cons_self _ _))
    | cons v vs =>
      have := ih (fun r hr => h r (List.mem_cons_of_mem _ hr))
      simp [lastColumn, this]

/-- C4: in the array form of `lookup` the search vector is the first column
and the result vector the last column when the height is at least the width,
and the first and last row when the width is larger; in particular
`lookup(5, [[1,"a"],[5,"b"],[9,"c"]])` is `"b"`. -/
theorem c4_lookup_array_form :
    (∀ lv r0 (rest : List (List (Option XVal))), (∀ r ∈ r0 :: rest, r ≠ []) →
      (r0.length ≤ (r0 :: rest).length →
        lookup lv (.array (r0 :: rest)) none =
          projectResult (matchF lv ((r0 :: rest).map (fun r => r.headD none)) 1)
            ((r0 :: rest).map (fun r => r.getLastD none))) ∧
      ((r0 :: rest).length < r0.length →
        lookup lv (.array (r0 :: rest)) none =
          projectResult (matchF lv r0 1) ((r0 :: rest).getLastD []))) ∧
    lookup (.num 5)
      (.array [[some (.num 1), some (.str "a")], [some (.num 5), some (.str "b")],
        [some (.num 9), some (.str "c")]]) none = .ok (some (.str "b")) := by
  constructor
  · intro lv r0 rest hrows
    constructor
    · intro hle
      simp only [lookup, List.get?_cons_zero, if_pos hle,
        firstColumn_eq _ hrows, lastColumn_eq _ hrows, lookupFinish]
    · intro hlt
      have hle : ¬ r0.length ≤ (r0 :: rest).length := by omega
      simp only [lookup, List.get?_cons_zero, if_neg hle, lookupFinish]
  · decide

/-- C4 witness: the general array-form characterisation at the scenario
table. -/
theorem c4_lookup_array_form_witness :
    lookup (.num 5)
      (.array [[some (.num 1), some (.str "a")], [some (.num 5), some (.str "b")],
        [some (.num 9), some (.str "c")]]) none =
      projectResult
        (matchF (.num 5)
          (([[some (.num 1), some (.str "a")], [some (.num 5), some (.str "b")],
            [some (.num 9), some (.str "c")]] :
              List (List (Option XVal))).map (fun r => r.headD none)) 1)
        (([[some (.num 1), some (.str "a")], [some (.num 5), some (.str "b")],
          [some (.num 9), some (.str "c")]] :
            List (List (Option XVal))).map (fun r => r.getLastD none)) :=
  ((c4_lookup_array_form.1 (XVal.num 5) [some (XVal.num 1), some (XVal.str "a")]
    [[some (XVal.num 5), some (XVal.str "b")], [some (XVal.num 9), some (XVal.str "c")]]
    (by decide)).1 (by decide))

theorem lookupFinish_bad (m : MatchResult) (res : List (Option XVal)) (rr : ArgValue)
    (hbad : badShape rr) : lookupFinish m res (some rr) = .ok (some (.err NA_ERROR)) := by
  cases rr with
  | scalar v => rfl
  | array rrows =>
    obtain ⟨h1, h2, h3⟩ := hbad
    cases rrows with
    | nil => exact absurd rfl h1
    | cons rr0 rtail =>
      have h3' : rr0.length ≠ 1 := by simpa using h3
      have h2' : (rr0 :: rtail).length ≠ 1 := h2
      by_cases hlt : rr0.length < (rr0 :: rtail).length
      · simp only [lookupFinish, List.get?_cons_zero, if_pos hlt, if_pos h3']
      · simp only [lookupFinish, List.get?_cons_zero, if_neg hlt, if_pos h2']

/-- C8 counterexample: the claim quantifies over every `lookup_array`, but an
empty array makes `lookup` raise (indexing its first row) instead of
returning the value-unavailable error, even with an ill-shaped
`result_range`. -/
theorem c8_counterexample :
    lookup (.num 1) (.array []) (some (.scalar none)) = .raised ∧
    XResult.raised ≠ .ok (some (.err NA_ERROR)) := by
  exact ⟨rfl, by decide⟩

/-- C8 amended: for every target, every non-empty `lookup_array` whose rows
are non-empty, and every `result_range` that is a scalar or a non-empty
array that is neither a single row nor a single column, `lookup` returns the
value-unavailable (`#N/A`) error. -/
theorem c8_bad_result_shape (lv : XVal) (rows : List (List (Option XVal)))
    (rr : ArgValue) (hne : rows ≠ []) (hrows : ∀ r ∈ rows, r ≠ [])
    (hbad : badShape rr) :
    lookup lv (.array rows) (some rr) = .ok (some (.err NA_ERROR)) := by
  obtain ⟨r0, rest, rfl⟩ : ∃ r0 rest, rows = r0 :: rest := by
    cases rows with
    | nil => exact absurd rfl hne
    | cons a b => exact ⟨a, b, rfl⟩
  by_cases hle : r0.length ≤ (r0 :: rest).length
  · simp only [lookup, List.get?_cons_zero, if_pos hle,
      firstColumn_eq _ hrows, lastColumn_eq _ hrows]
    exact lookupFinish_bad _ _ _ hbad
  · simp only [lookup, List.get?_cons_zero, if_neg hle]
    exact lookupFinish_bad _ _ _ hbad

/-- C8 witness: a 2x2 `result_range` yields the value-unavailable error. -/
theorem c8_bad_result_shape_witness :
    lookup (.num 1) (.array [[some (.num 1)], [some (.num 2)]])
      (some (.array [[some (.num 1), some (.num 2)], [some (.num 3), some (.num 4)]])) =
      .ok (some (.err NA_ERROR)) :=
  c8_bad_result_shape (XVal.num 1) [[some (XVal.num 1)], [some (XVal.num 2)]]
    (.array [[some (XVal.num 1), some (XVal.num 2)], [some (XVal.num 3), some (XVal.num 4)]])
    (by decide) (by decide) (by refine ⟨by decide, by decide, by decide⟩)

/-- C10: the ascending search never answers with the position of an absence
marker: whenever the walk-back lands on position 0 or on an absent cell the
not-found sentinel is returned, and every returned position is non-zero and
holds a present value. -/
theorem c10_no_absent_position (lv : XVal) (a : List (Option XVal)) :
    ((walkBack a (cmpType lv) (bisect_right a lv (trimLo a) (trimHi a)) = 0 ∨
        a.getD (walkBack a (cmpType lv) (bisect_right a lv (trimLo a) (trimHi a)) - 1) none
          = none) →
      matchAsc lv a = .err NA_ERROR) ∧
    ∀ p, matchAsc lv a = .pos p → p ≠ 0 ∧ a.getD (p - 1) none ≠ none := by
  constructor
  · intro h
    rcases h with h | h
    · simp [matchAsc, h]
    · unfold matchAsc
      by_cases h0 : walkBack a (cmpType lv) (bisect_right a lv (trimLo a) (trimHi a)) = 0
      · simp only [if_pos h0]
      · simp only [if_neg h0, if_pos h]
  · intro p hp
    unfold matchAsc at hp
    by_cases h0 : walkBack a (cmpType lv) (bisect_right a lv (trimLo a) (trimHi a)) = 0
    · simp only [if_pos h0] at hp
      exact MatchResult.noConfusion hp
    · by_cases hn :
        a.getD (walkBack a (cmpType lv) (bisect_right a lv (trimLo a) (trimHi a)) - 1) none
          = none
      · simp only [if_neg h0, if_pos hn] at hp
        exact MatchResult.noConfusion hp
      · simp only [if_neg h0, if_neg hn] at hp
        cases hp
        exact ⟨h0, hn⟩

/-- C10 witness: a target below the searched window lands on position 0 and
yields the not-found sentinel; a returned position holds a present value. -/
theorem c10_no_absent_position_witness :
    matchAsc (.str "a") [some (.str "b")] = .err NA_ERROR ∧
    (2 ≠ 0 ∧
      ([some (XVal.str "a"), some (XVal.str "b")] : List (Option XVal)).getD (2 - 1) none
        ≠ none) :=
  ⟨(c10_no_absent_position (XVal.str "a") [some (XVal.str "b")]).1 (by decide),
   (c10_no_absent_position (XVal.str "b") [some (XVal.str "a"), some (XVal.str "b")]).2 2
     (by decide)⟩

end Pycel
